import Mathlib

/-!
Verification of `parser.py` (DigiRocket-Technologies/sitemapparser).

The development shallowly embeds the program:

* the three `re.search` patterns of `categorize_urls` become executable
  matchers over `List Char` (`searchProd`, `searchColl`, `searchBlog`);
* `urllib.parse.urlparse(url).path` becomes `urlparse_path`
  (scheme split, netloc split, fragment/query split, params split);
* `parse_sitemap` becomes a fuel-indexed recursive function over an
  element-tree model of the XML document, with the network modelled as a
  function from URLs to fetch/parse outcomes;
* `export_to_excel` and `main` become functions recording which file is
  written and the resulting exit code.
-/

namespace SitemapVer

/-! ## Regex matchers of `categorize_urls`

The code tests `re.search(r'/products?/[^/]+/?$', path)` (and the analogous
collection/blog patterns).  Characters are modelled one code point at a
time over `List Char`, and `re.search` as trying a match at every start
position. -/

/-- The character class `[^/]`. -/
def nonSlash (c : Char) : Bool := c ≠ '/'

/-- `[^/]+` matching an entire chunk: nonempty, no slash. -/
def isSeg (l : List Char) : Bool := !l.isEmpty && l.all nonSlash

/-- `[^/]+/?$` : one segment, optionally followed by a single trailing
slash, consuming the whole remainder. -/
def segSlashOpt (l : List Char) : Bool :=
  isSeg l || (l.getLast? == some '/' && isSeg l.dropLast)

/-- `[^/]+/[^/]+/?$` : two slash-separated segments then an optional
trailing slash, consuming the whole remainder. -/
def seg2SlashOpt (l : List Char) : Bool :=
  let a := l.takeWhile nonSlash
  let r := l.dropWhile nonSlash
  !a.isEmpty &&
    (match r with
     | c :: rest => c == '/' && segSlashOpt rest
     | [] => false)

/-- Literal-prefix test on character lists. -/
def startsWithL : List Char → List Char → Bool
  | [], _ => true
  | _ :: _, [] => false
  | p :: ps, c :: cs => p == c && startsWithL ps cs

/-- Match, at the current position, the pattern
`/<w>s?/` followed by `tailM` consuming the rest of the input
(this is the shape of all three regexes: `w` is `product`, `collection`
or `blog`, with an optional plural `s`). -/
def matchFrom (w : List Char) (tailM : List Char → Bool) (l : List Char) : Bool :=
  let p1 : List Char := '/' :: (w ++ ['/'])
  let p2 : List Char := '/' :: (w ++ ['s', '/'])
  (startsWithL p1 l && tailM (l.drop p1.length)) ||
  (startsWithL p2 l && tailM (l.drop p2.length))

/-- `re.search`: try the match at every start position (including the
position after the last character). -/
def searchB (f : List Char → Bool) : List Char → Bool
  | [] => f []
  | c :: rest => f (c :: rest) || searchB f rest

/-- `re.search(r'/products?/[^/]+/?$', path)`. -/
def searchProd (l : List Char) : Bool := searchB (matchFrom "product".data segSlashOpt) l

/-- `re.search(r'/collections?/[^/]+/?$', path)`. -/
def searchColl (l : List Char) : Bool := searchB (matchFrom "collection".data segSlashOpt) l

/-- `re.search(r'/blogs?/[^/]+/[^/]+/?$', path)`. -/
def searchBlog (l : List Char) : Bool := searchB (matchFrom "blog".data seg2SlashOpt) l

/-! ## `urlparse(url).path`

Model of `urllib.parse.urlparse(url).path` (CPython 3.11
`urllib/parse.py`).  `urlsplit` first strips leading C0-control/space
characters and removes every tab, CR and LF; it then removes the scheme
(when the part before the first `:` is a valid scheme) and the netloc
(after `//`, up to the first `/`, `?` or `#`).  A netloc containing `[`
without `]` (or `]` without `[`) raises `ValueError` ("Invalid IPv6
URL"); a netloc with both brackets has the text between the first `[`
and the following `]` validated by `_check_bracketed_host` (IPv6 /
IPvFuture acceptance via the `ipaddress` machinery), and a nonempty
non-ASCII netloc is validated by `_checknetloc` (Unicode NFKC
normalization), either of which may raise `ValueError`.  The fragment
(after the first `#`) and the query (after the first `?`) are removed;
`urlparse` additionally splits `;params` off the last path segment when
the scheme uses params.

The two validations whose acceptance depends on the `ipaddress` parser
and the Unicode NFKC tables are modelled as oracle parameters, consulted
exactly under CPython's trigger conditions; every theorem below
quantifies over the oracles, so it holds in particular for CPython's
actual predicates. -/

/-- The errors a run can propagate: `ET.ParseError`, a
`requests` fetch failure, `AttributeError` on a `<loc>`-less `<sitemap>`
entry, `RecursionError` from unbounded sitemap-index recursion,
`ValueError` from `urlparse` on a malformed netloc, and the `KeyError`
of the export summary on an empty frame. -/
inductive PErr where
  | parseError
  | fetchError
  | attrError
  | recursionError
  | valueError
  | keyError
  deriving Repr, DecidableEq

/-- Oracles for the two `urlsplit` netloc validations whose acceptance
needs machinery outside the embedding: whether `_check_bracketed_host`
raises on the text between the netloc's first `[` and the following `]`,
and whether `_checknetloc` raises on a nonempty non-ASCII netloc. -/
structure StdlibOracles where
  bracketedHostRejects : String → Bool
  nfkcRejects : String → Bool

/-- CPython `_WHATWG_C0_CONTROL_OR_SPACE`: code points `0x00`–`0x20`. -/
def c0ControlOrSpace (c : Char) : Bool := c.toNat ≤ 0x20

/-- CPython `_UNSAFE_URL_BYTES_TO_REMOVE`: tab, CR, LF. -/
def tabCrLf (c : Char) : Bool := c = '\t' || c = '\r' || c = '\n'

/-- CPython `scheme_chars`: letters, digits, `+`, `-`, `.` (ASCII). -/
def schemeChar (c : Char) : Bool := c.isAlphanum || c = '+' || c = '-' || c = '.'

/-- Split off the scheme: the part before the first `:`, accepted when it
is nonempty, starts with an ASCII letter and consists of scheme
characters.  Returns (scheme if present, remainder). -/
def schemeSplit (l : List Char) : Option (List Char) × List Char :=
  match l with
  | [] => (none, [])
  | c :: rest =>
    let pre := (c :: rest).takeWhile (fun x => x ≠ ':')
    if pre.length < (c :: rest).length && !pre.isEmpty && c.isAlpha && pre.all schemeChar then
      (some pre, (c :: rest).drop (pre.length + 1))
    else (none, c :: rest)

/-- A character that does not terminate the netloc. -/
def notNetlocEnd (c : Char) : Bool := c ≠ '/' && c ≠ '?' && c ≠ '#'

/-- `_splitnetloc`: when the remainder begins with `//`, split off the
netloc — everything up to the first `/`, `?` or `#` — returning
`(netloc, rest)`; otherwise the netloc is empty. -/
def splitNetloc2 (l : List Char) : List Char × List Char :=
  match l with
  | '/' :: '/' :: rest => (rest.takeWhile notNetlocEnd, rest.dropWhile notNetlocEnd)
  | _ => ([], l)

/-- Keep what precedes the first `#`. -/
def dropFragment (l : List Char) : List Char := l.takeWhile (fun c => c ≠ '#')

/-- Keep what precedes the first `?`. -/
def dropQuery (l : List Char) : List Char := l.takeWhile (fun c => c ≠ '?')

/-- CPython `uses_params`. -/
def usesParams : List String :=
  ["", "ftp", "hdl", "prospero", "http", "imap", "https", "shttp", "rtsp",
   "rtspu", "sip", "sips", "mms", "sftp", "tel"]

/-- CPython `_splitparams`, returning the path part: when the last path
segment contains a `;`, cut the segment at its first `;` (when the path
has no `/` at all, cut the whole path at its first `;`). -/
def splitParams (l : List Char) : List Char :=
  if l.contains '/' then
    let lastSeg := (l.reverse.takeWhile nonSlash).reverse
    if lastSeg.contains ';' then
      l.take (l.length - lastSeg.length) ++ lastSeg.takeWhile (fun c => c ≠ ';')
    else l
  else l.takeWhile (fun c => c ≠ ';')

/-- `urllib.parse.urlparse(u).path`, or the `ValueError` `urlparse`
raises on a malformed netloc. -/
def urlparse_path (o : StdlibOracles) (u : String) : Except PErr String :=
  let cleaned := (u.data.dropWhile c0ControlOrSpace).filter (fun c => !tabCrLf c)
  let sp := schemeSplit cleaned
  let scheme : List Char := (sp.1.getD []).map Char.toLower
  let nl := splitNetloc2 sp.2
  let netloc := nl.1
  let hasL := netloc.contains '['
  let hasR := netloc.contains ']'
  if (hasL && !hasR) || (hasR && !hasL) then .error .valueError
  else if hasL && hasR &&
      o.bracketedHostRejects
        ⟨((netloc.dropWhile (fun c => c ≠ '[')).drop 1).takeWhile (fun c => c ≠ ']')⟩ then
    .error .valueError
  else if !netloc.isEmpty && !netloc.all (fun c => c.toNat < 128) &&
      o.nfkcRejects ⟨netloc⟩ then
    .error .valueError
  else
    let path := dropQuery (dropFragment nl.2)
    let path2 :=
      if usesParams.contains (String.mk scheme) && path.contains ';' then
        splitParams path
      else path
    .ok (String.mk path2)

/-! ## Records and the categorizer -/

/-- An entry of `self.urls`: a dict `{'url': ..., 'lastmod': ...}`. -/
structure URLRecord where
  url : String
  lastmod : Option String
  deriving Repr, DecidableEq

/-- An entry of `categorized_urls`. -/
structure CatRecord where
  url : String
  category : String
  lastmod : Option String
  deriving Repr, DecidableEq

/-- The first-match-wins pattern cascade of `categorize_urls` on an
extracted path (default `"page"`). -/
def pathCategory (path : String) : String :=
  if searchProd path.data then "product"
  else if searchColl path.data then "collection"
  else if searchBlog path.data then "blog"
  else "page"

/-- The body of the loop of `categorize_urls`: extract the path of the
record's URL with `urlparse` (whose `ValueError` propagates), apply the
pattern cascade, and build the categorized dict. -/
def categorizeRecord (o : StdlibOracles) (r : URLRecord) : Except PErr CatRecord :=
  match urlparse_path o r.url with
  | .error e => .error e
  | .ok path => .ok { url := r.url, category := pathCategory path, lastmod := r.lastmod }

/-- `categorize_urls`: the loop over `self.urls` appending one
categorized record per input record; an exception raised mid-loop
propagates, discarding the records built so far. -/
def categorize_urls (o : StdlibOracles) : List URLRecord → Except PErr (List CatRecord)
  | [] => .ok []
  | r :: rest =>
    match categorizeRecord o r with
    | .error e => .error e
    | .ok c =>
      match categorize_urls o rest with
      | .error e => .error e
      | .ok cs => .ok (c :: cs)

/-- A concrete oracle instance (its values are irrelevant wherever the
oracles are not consulted). -/
def o0 : StdlibOracles := ⟨fun _ => false, fun _ => false⟩

/-! ## Spec-level pattern descriptions

Following the spec's wording: "single-segment" / "segment" is one or more
characters excluding `/`; a rule `/<word>(s)?/...` matches anchored at the
end of the path (optionally followed by a trailing slash) at any start
position. -/

/-- One segment then an optional trailing slash, ending the path. -/
def SegTailSpec (l : List Char) : Prop :=
  ∃ seg t, (seg ≠ [] ∧ ∀ c ∈ seg, c ≠ '/') ∧ (t = [] ∨ t = ['/']) ∧ l = seg ++ t

/-- Two slash-separated segments then an optional trailing slash, ending
the path. -/
def Seg2TailSpec (l : List Char) : Prop :=
  ∃ s1 rest, (s1 ≠ [] ∧ ∀ c ∈ s1, c ≠ '/') ∧ SegTailSpec rest ∧ l = s1 ++ '/' :: rest

/-- The path has, at some start position, `/<w>` with an optional plural
`s`, then `/`, then a tail matching `tailSpec` up to the end of the path. -/
def PatSpec (w : List Char) (tailSpec : List Char → Prop) (p : List Char) : Prop :=
  ∃ pre s rest, (s = [] ∨ s = ['s']) ∧ tailSpec rest ∧
    p = pre ++ '/' :: (w ++ (s ++ '/' :: rest))

/-- Spec rule 1: path matches `/product(s)?/<single-segment>/?$`. -/
def ProdSpec (p : List Char) : Prop := PatSpec "product".data SegTailSpec p

/-- Spec rule 2: path matches `/collection(s)?/<single-segment>/?$`. -/
def CollSpec (p : List Char) : Prop := PatSpec "collection".data SegTailSpec p

/-- Spec rule 3: path matches `/blog(s)?/<segment>/<segment>/?$`. -/
def BlogSpec (p : List Char) : Prop := PatSpec "blog".data Seg2TailSpec p

/-! ## Element-tree model of the XML document

`xml.etree.ElementTree` qualifies tags of namespaced documents as
`{uri}local`; `findall('.//sm:tag', ns)` returns, in document order, the
strict descendants of the root whose (qualified) tag equals the given
one, and `find('./sm:tag', ns)` the first direct child with that tag. -/

/-- An element node of the parsed document tree. -/
structure XmlElem where
  tag : String
  text : Option String
  children : List XmlElem
  deriving Repr

/-- All strict descendants of a node list, in document order. -/
def descList : List XmlElem → List XmlElem
  | [] => []
  | XmlElem.mk t x cs :: rest => XmlElem.mk t x cs :: (descList cs ++ descList rest)

/-- `root.findall('.//<tag>')`: every strict descendant with this tag, in
document order. -/
def findallDesc (tag : String) (root : XmlElem) : List XmlElem :=
  (descList root.children).filter (fun e => e.tag == tag)

/-- `e.find('./<tag>')`: the first direct child with this tag. -/
def findChild (tag : String) (e : XmlElem) : Option XmlElem :=
  (e.children.filter (fun c => c.tag == tag)).head?

/-- The sitemap XML namespace bound to the `sm` prefix in the code. -/
def smNs : String := "http://www.sitemaps.org/schemas/sitemap/0.9"

/-- The namespace part of a qualified tag, in ElementTree's braced form. -/
def smNsBrace : String := "\x7b" ++ smNs ++ "\x7d"

/-- ElementTree's qualified form of a tag in the sitemap namespace. -/
def qual (t : String) : String := smNsBrace ++ t

def smSitemapTag : String := qual "sitemap"

def smUrlTag : String := qual "url"

def smLocTag : String := qual "loc"

def smLastmodTag : String := qual "lastmod"

def smUrlsetTag : String := qual "urlset"

def smIndexTag : String := qual "sitemapindex"

/-! ## The traverser `parse_sitemap`

Fetching and XML parsing of a document are modelled by their outcome: a
piece of content is `Except.error e` when `ET.fromstring` would raise
(`parseError` for malformed XML) and `Except.ok root` when it parses to
the element tree `root`.  The network is a function from the `<loc>` text
of a `<sitemap>` entry (an `Option String`, `none` when the `<loc>`
element is empty) to the fetched content's outcome, `Except.error` when
`fetch_sitemap` itself raises.  The unbounded recursion of the Python
code is indexed by fuel; exhausting it is Python's `RecursionError`. -/

/-- Outcome of `ET.fromstring` on a fetched body. -/
abbrev Content := Except PErr XmlElem

/-- The network: what fetching a sub-sitemap URL yields. -/
abbrev Net := Option String → Except PErr Content

/-- The `for url in url_tags` loop: append one record per `<url>` entry
whose `<loc>` child exists with truthy (nonempty) text, carrying the
`<lastmod>` text when that element exists. -/
def urlLoop : List XmlElem → List URLRecord → List URLRecord
  | [], urls => urls
  | u :: rest, urls =>
    match findChild smLocTag u with
    | none => urlLoop rest urls
    | some loc =>
      match loc.text with
      | none => urlLoop rest urls
      | some s =>
        if s = "" then urlLoop rest urls
        else urlLoop rest (urls ++ [⟨s, (findChild smLastmodTag u).bind XmlElem.text⟩])

mutual

/-- `parse_sitemap(content)`: propagate a parse failure; otherwise walk
the `<sitemap>` entries (fetching and recursively parsing each) and then
the `<url>` entries, threading the shared accumulation list `self.urls`. -/
def parse_sitemap (net : Net) (fuel : Nat) (content : Content)
    (urls : List URLRecord) : Except PErr (List URLRecord) :=
  match content with
  | .error e => .error e
  | .ok root =>
    match processSitemaps net fuel (findallDesc smSitemapTag root) urls with
    | .error e => .error e
    | .ok urls1 => .ok (urlLoop (findallDesc smUrlTag root) urls1)
termination_by (fuel, 1, 0)

/-- The `for sitemap in sitemap_tags` loop: `sitemap.find('./sm:loc').text`
(an attribute-access failure when the `<loc>` child is missing), fetch,
recursive parse, next sibling. -/
def processSitemaps (net : Net) (fuel : Nat) (tags : List XmlElem)
    (urls : List URLRecord) : Except PErr (List URLRecord) :=
  match tags with
  | [] => .ok urls
  | sm :: rest =>
    match findChild smLocTag sm with
    | none => .error .attrError
    | some loc =>
      match net loc.text with
      | .error e => .error e
      | .ok sub =>
        match fuel with
        | 0 => .error .recursionError
        | k + 1 =>
          match parse_sitemap net k sub urls with
          | .error e => .error e
          | .ok urls2 => processSitemaps net (k + 1) rest urls2
termination_by (fuel, 0, tags.length)

end

/-! ## Document fixtures and a benign network -/

/-- `<url><loc>u</loc><lastmod>..</lastmod></url>`. -/
def mkUrlEntry (u : String) (lm : Option String) : XmlElem :=
  ⟨smUrlTag, none,
    ⟨smLocTag, some u, []⟩ ::
      (match lm with
       | some t => [⟨smLastmodTag, some t, []⟩]
       | none => [])⟩

/-- `<urlset>` with one `<url>` entry per pair. -/
def mkUrlset (entries : List (String × Option String)) : XmlElem :=
  ⟨smUrlsetTag, none, entries.map (fun e => mkUrlEntry e.1 e.2)⟩

/-- A `<sitemap>` index entry, with a `<loc>` child or (malformed) without. -/
def sitemapEntry : Option String → XmlElem
  | some u => ⟨smSitemapTag, none, [⟨smLocTag, some u, []⟩]⟩
  | none => ⟨smSitemapTag, none, []⟩

/-- `<sitemapindex>` with the given `<sitemap>` entries. -/
def indexDoc (entries : List (Option String)) : XmlElem :=
  ⟨smIndexTag, none, entries.map sitemapEntry⟩

/-- The records `parse_sitemap` extracts from `mkUrlset entries`: one per
entry with a nonempty URL. -/
def recordsOf (entries : List (String × Option String)) : List URLRecord :=
  entries.filterMap (fun e => if e.1 = "" then none else some ⟨e.1, e.2⟩)

/-- A network on which every fetch succeeds and yields the well-formed
one-level `<urlset>` described by `f`. -/
def netOf (f : String → List (String × Option String)) : Net := fun ou =>
  match ou with
  | none => .error .fetchError
  | some u => .ok (.ok (mkUrlset (f u)))

/-- Accumulate, in order, the records of each sub-sitemap of `netOf f`. -/
def recordsAll (f : String → List (String × Option String)) : List String → List URLRecord
  | [] => []
  | u :: rest => recordsOf (f u) ++ recordsAll f rest

/-- The record a single `<url>` entry contributes, when any: its `<loc>`
child must exist with nonempty text; `lastmod` is the `<lastmod>` child's
text when that element exists. -/
def urlEntryRecord (u : XmlElem) : Option URLRecord :=
  match findChild smLocTag u with
  | none => none
  | some loc =>
    match loc.text with
    | none => none
    | some s =>
      if s = "" then none
      else some ⟨s, (findChild smLastmodTag u).bind XmlElem.text⟩

/-- A `<urlset>` exercising every `<url>` edge case: present `<lastmod>`,
absent `<lastmod>`, missing `<loc>`, empty-text `<loc>`, text-less `<loc>`. -/
def c2doc : XmlElem :=
  ⟨smUrlsetTag, none,
    [mkUrlEntry "https://example.com/a" (some "2024-01-01"),
     mkUrlEntry "https://example.com/b" none,
     ⟨smUrlTag, none, []⟩,
     ⟨smUrlTag, none, [⟨smLocTag, some "", []⟩]⟩,
     ⟨smUrlTag, none, [⟨smLocTag, none, []⟩]⟩]⟩

/-- A well-formed document whose elements carry no namespace. -/
def noNsDoc : XmlElem :=
  ⟨"urlset", none, [⟨"url", none, [⟨"loc", some "https://example.com/x", []⟩]⟩]⟩

/-- Spec scenario D: two sub-sitemaps, each resolving to a one-URL
`<urlset>`. -/
def scenarioDNet : String → List (String × Option String) := fun u =>
  if u = "https://example.com/s1.xml" then [("https://example.com/a", none)]
  else [("https://example.com/b", none)]

/-! ## `export_to_excel` and `main`

The filesystem effect is modelled by the value `(written, outcome)`:
`written` records the file `df.to_excel` produces (path and rows) and
`outcome` whether the call returns the path or raises.  On an empty
record list the data frame has no `category` column, so the summary line
`df['category'].value_counts()` — evaluated after the file was written —
raises a `KeyError`.  (An unwritable destination is outside the model:
the destination is assumed writable, as in the spec's scenarios.) -/

def export_to_excel (records : List CatRecord) (output_file : Option String)
    (autoName : String) : Option (String × List CatRecord) × Except PErr String :=
  let file :=
    match output_file with
    | none => autoName
    | some s => if s = "" then autoName else s
  let written := some (file, records)
  if records.isEmpty then (written, .error .keyError)
  else (written, .ok file)

/-- `main` after argument parsing: fetch the root sitemap, parse,
categorize, export; any error yields exit code 1.  The result is the
exit code and what was written to the filesystem. -/
def mainRun (o : StdlibOracles) (net : Net) (fuel : Nat) (sitemap_url : String)
    (output : Option String) (autoName : String) :
    Nat × Option (String × List CatRecord) :=
  match net (some sitemap_url) with
  | .error _ => (1, none)
  | .ok content =>
    match parse_sitemap net fuel content [] with
    | .error _ => (1, none)
    | .ok urls =>
      match categorize_urls o urls with
      | .error _ => (1, none)
      | .ok categorized =>
        match export_to_excel categorized output autoName with
        | (written, .error _) => (1, written)
        | (written, .ok _) => (0, written)

/-! ## Characterization of the matchers -/

theorem startsWithL_iff (pat l : List Char) :
    startsWithL pat l = true ↔ ∃ rest, l = pat ++ rest := by
  induction pat generalizing l with
  | nil => simp [startsWithL]
  | cons p ps ih =>
    cases l with
    | nil => simp [startsWithL]
    | cons c cs =>
      simp only [startsWithL, Bool.and_eq_true, beq_iff_eq]
      constructor
      · rintro ⟨rfl, h⟩
        obtain ⟨rest, rfl⟩ := (ih cs).1 h
        exact ⟨rest, rfl⟩
      · rintro ⟨rest, h⟩
        injection h with h1 h2
        exact ⟨h1.symm, (ih cs).2 ⟨rest, h2⟩⟩

theorem searchB_iff (f : List Char → Bool) (l : List Char) :
    searchB f l = true ↔ ∃ pre post, l = pre ++ post ∧ f post = true := by
  induction l with
  | nil =>
    simp only [searchB]
    constructor
    · intro h
      exact ⟨[], [], rfl, h⟩
    · rintro ⟨pre, post, h, hf⟩
      obtain ⟨rfl, rfl⟩ := List.append_eq_nil.1 h.symm
      exact hf
  | cons c rest ih =>
    simp only [searchB, Bool.or_eq_true, ih]
    constructor
    · rintro (h | ⟨pre, post, rfl, hf⟩)
      · exact ⟨[], c :: rest, rfl, h⟩
      · exact ⟨c :: pre, post, rfl, hf⟩
    · rintro ⟨pre, post, h, hf⟩
      cases pre with
      | nil =>
        left
        rw [List.nil_append] at h
        rw [h]
        exact hf
      | cons x xs =>
        right
        injection h with h1 h2
        exact ⟨xs, post, h2, hf⟩

theorem searchB_mono (f : List Char → Bool) (pre p : List Char)
    (h : searchB f p = true) : searchB f (pre ++ p) = true := by
  induction pre with
  | nil => simpa using h
  | cons c cs ih => simp [searchB, ih]

theorem isSeg_iff (l : List Char) :
    isSeg l = true ↔ l ≠ [] ∧ ∀ c ∈ l, c ≠ '/' := by
  simp [isSeg, nonSlash, List.isEmpty_iff]

theorem segSlashOpt_iff (l : List Char) :
    segSlashOpt l = true ↔ SegTailSpec l := by
  constructor
  · intro h
    rw [segSlashOpt, Bool.or_eq_true, Bool.and_eq_true, beq_iff_eq] at h
    rcases h with h | ⟨hlast, hseg⟩
    · exact ⟨l, [], (isSeg_iff l).1 h, Or.inl rfl, (List.append_nil l).symm⟩
    · have hne : l ≠ [] := by
        intro e
        rw [e] at hlast
        simp at hlast
      have hgl : l.getLast hne = '/' := by
        have := List.getLast?_eq_getLast l hne
        rw [hlast] at this
        exact (Option.some_injective _ this).symm
      have hl : l.dropLast ++ ['/'] = l := by
        rw [← hgl]
        exact List.dropLast_append_getLast hne
      exact ⟨l.dropLast, ['/'], (isSeg_iff _).1 hseg, Or.inr rfl, hl.symm⟩
  · rintro ⟨seg, t, hseg, ht, rfl⟩
    rcases ht with rfl | rfl
    · rw [segSlashOpt, Bool.or_eq_true]
      left
      rw [List.append_nil]
      exact (isSeg_iff _).2 hseg
    · rw [segSlashOpt, Bool.or_eq_true]
      right
      rw [Bool.and_eq_true, beq_iff_eq, List.getLast?_concat, List.dropLast_concat]
      exact ⟨rfl, (isSeg_iff _).2 hseg⟩

theorem takeWhile_append_stop {p : Char → Bool} (s1 : List Char) (x : Char) (r : List Char)
    (h1 : ∀ c ∈ s1, p c = true) (hx : p x = false) :
    (s1 ++ x :: r).takeWhile p = s1 := by
  induction s1 with
  | nil => simp [List.takeWhile_cons, hx]
  | cons a s ih =>
    have ha := h1 a (by simp)
    simp [List.takeWhile_cons, ha, ih (fun c hc => h1 c (by simp [hc]))]

theorem dropWhile_append_stop {p : Char → Bool} (s1 : List Char) (x : Char) (r : List Char)
    (h1 : ∀ c ∈ s1, p c = true) (hx : p x = false) :
    (s1 ++ x :: r).dropWhile p = x :: r := by
  induction s1 with
  | nil => simp [List.dropWhile_cons, hx]
  | cons a s ih =>
    have ha := h1 a (by simp)
    simp [List.dropWhile_cons, ha, ih (fun c hc => h1 c (by simp [hc]))]

theorem seg2SlashOpt_iff (l : List Char) :
    seg2SlashOpt l = true ↔ Seg2TailSpec l := by
  constructor
  · intro h
    simp only [seg2SlashOpt, Bool.and_eq_true] at h
    obtain ⟨ha, hr⟩ := h
    cases hd : l.dropWhile nonSlash with
    | nil =>
      rw [hd] at hr
      simp at hr
    | cons c rest =>
      rw [hd] at hr
      simp only [Bool.and_eq_true, beq_iff_eq] at hr
      obtain ⟨rfl, hrest⟩ := hr
      refine ⟨l.takeWhile nonSlash, rest, ⟨?_, ?_⟩, (segSlashOpt_iff rest).1 hrest, ?_⟩
      · intro e
        rw [e] at ha
        simp at ha
      · intro c hc
        have := List.mem_takeWhile_imp hc
        simpa [nonSlash] using this
      · conv_lhs => rw [← List.takeWhile_append_dropWhile nonSlash l]
        rw [hd]
  · rintro ⟨s1, rest, ⟨hne, hmem⟩, htail, rfl⟩
    have hmem' : ∀ c ∈ s1, nonSlash c = true := by
      intro c hc
      simp [nonSlash, hmem c hc]
    have htw := takeWhile_append_stop s1 '/' rest hmem' (by simp [nonSlash])
    have hdw := dropWhile_append_stop s1 '/' rest hmem' (by simp [nonSlash])
    simp only [seg2SlashOpt, htw, hdw, Bool.and_eq_true, beq_self_eq_true, true_and]
    refine ⟨?_, (segSlashOpt_iff rest).2 htail⟩
    simpa using hne

theorem matchFrom_iff (w : List Char) (tailM : List Char → Bool) (l : List Char) :
    matchFrom w tailM l = true ↔
      ∃ s rest, (s = [] ∨ s = ['s']) ∧ l = '/' :: (w ++ (s ++ '/' :: rest)) ∧
        tailM rest = true := by
  simp only [matchFrom, Bool.or_eq_true, Bool.and_eq_true]
  constructor
  · rintro (⟨hpre, htail⟩ | ⟨hpre, htail⟩)
    · obtain ⟨rest, rfl⟩ := (startsWithL_iff _ _).1 hpre
      rw [List.drop_left] at htail
      exact ⟨[], rest, Or.inl rfl, by simp, htail⟩
    · obtain ⟨rest, rfl⟩ := (startsWithL_iff _ _).1 hpre
      rw [List.drop_left] at htail
      exact ⟨['s'], rest, Or.inr rfl, by simp, htail⟩
  · rintro ⟨s, rest, hs, rfl, htail⟩
    rcases hs with rfl | rfl
    · left
      have he : '/' :: (w ++ ([] ++ '/' :: rest)) = ('/' :: (w ++ ['/'])) ++ rest := by simp
      rw [he, List.drop_left]
      exact ⟨(startsWithL_iff _ _).2 ⟨rest, rfl⟩, htail⟩
    · right
      have he : '/' :: (w ++ (['s'] ++ '/' :: rest)) = ('/' :: (w ++ ['s', '/'])) ++ rest := by
        simp
      rw [he, List.drop_left]
      exact ⟨(startsWithL_iff _ _).2 ⟨rest, rfl⟩, htail⟩

theorem searchPat_iff (w : List Char) (tailM : List Char → Bool) (tailSpec : List Char → Prop)
    (htail : ∀ l, tailM l = true ↔ tailSpec l) (p : List Char) :
    searchB (matchFrom w tailM) p = true ↔ PatSpec w tailSpec p := by
  rw [searchB_iff]
  constructor
  · rintro ⟨pre, post, rfl, hm⟩
    obtain ⟨s, rest, hs, rfl, ht⟩ := (matchFrom_iff _ _ _).1 hm
    exact ⟨pre, s, rest, hs, (htail _).1 ht, rfl⟩
  · rintro ⟨pre, s, rest, hs, ht, rfl⟩
    exact ⟨pre, _, rfl, (matchFrom_iff _ _ _).2 ⟨s, rest, hs, rfl, (htail _).2 ht⟩⟩

theorem searchProd_iff (p : List Char) : searchProd p = true ↔ ProdSpec p :=
  searchPat_iff _ _ _ segSlashOpt_iff p

theorem searchColl_iff (p : List Char) : searchColl p = true ↔ CollSpec p :=
  searchPat_iff _ _ _ segSlashOpt_iff p

theorem searchBlog_iff (p : List Char) : searchBlog p = true ↔ BlogSpec p :=
  searchPat_iff _ _ _ seg2SlashOpt_iff p

/-! ## The categorizer -/

theorem pathCategory_eq (p : String) :
    pathCategory p =
      (if searchProd p.data then "product"
       else if searchColl p.data then "collection"
       else if searchBlog p.data then "blog"
       else "page") := rfl

theorem pathCategory_mem (p : String) :
    pathCategory p = "page" ∨ pathCategory p = "product" ∨ pathCategory p = "collection" ∨
      pathCategory p = "blog" := by
  rw [pathCategory_eq]
  split
  · right; left; rfl
  split
  · right; right; left; rfl
  split
  · right; right; right; rfl
  · left; rfl

theorem categorizeRecord_ok (o : StdlibOracles) (r : URLRecord) (p : String)
    (h : urlparse_path o r.url = .ok p) :
    categorizeRecord o r = .ok ⟨r.url, pathCategory p, r.lastmod⟩ := by
  simp [categorizeRecord, h]

theorem categorizeRecord_error (o : StdlibOracles) (r : URLRecord) (e : PErr)
    (h : urlparse_path o r.url = .error e) :
    categorizeRecord o r = .error e := by
  simp [categorizeRecord, h]

theorem categorizeRecord_ok_inv (o : StdlibOracles) (r : URLRecord) (c : CatRecord)
    (h : categorizeRecord o r = .ok c) :
    c.url = r.url ∧ c.lastmod = r.lastmod ∧
      (c.category = "page" ∨ c.category = "product" ∨ c.category = "collection" ∨
        c.category = "blog") := by
  cases hp : urlparse_path o r.url with
  | error e =>
    rw [categorizeRecord_error o r e hp] at h
    exact absurd h (by simp)
  | ok p =>
    rw [categorizeRecord_ok o r p hp] at h
    injection h with h1
    rw [← h1]
    exact ⟨rfl, rfl, pathCategory_mem p⟩

/-- C1 (amended): for every URL on which `urlparse` path extraction
succeeds, the categorizer assigns the category by first-match-wins
evaluation over the extracted path: `/product(s)?/<single-segment>/?$`
gives `product`; else `/collection(s)?/<single-segment>/?$` gives
`collection`; else `/blog(s)?/<segment>/<segment>/?$` gives `blog`; else
`page`.  In particular `/products/widget/` is a `product`, `/about/` a
`page`, `/blogs/news/my-post/` a `blog`, and a trailing LF in the loc
text is stripped by `urlparse` before matching. -/
theorem categorize_first_match :
    (∀ (o : StdlibOracles) (u : String) (lm : Option String) (p : String),
      urlparse_path o u = .ok p →
      categorizeRecord o ⟨u, lm⟩ = .ok ⟨u, pathCategory p, lm⟩ ∧
      (pathCategory p = "product" ↔ ProdSpec p.data) ∧
      (pathCategory p = "collection" ↔ ¬ ProdSpec p.data ∧ CollSpec p.data) ∧
      (pathCategory p = "blog" ↔
        ¬ ProdSpec p.data ∧ ¬ CollSpec p.data ∧ BlogSpec p.data) ∧
      (pathCategory p = "page" ↔
        ¬ ProdSpec p.data ∧ ¬ CollSpec p.data ∧ ¬ BlogSpec p.data)) ∧
    (∀ o : StdlibOracles,
      categorizeRecord o ⟨"https://example.com/products/widget/", none⟩ =
        .ok ⟨"https://example.com/products/widget/", "product", none⟩) ∧
    (∀ o : StdlibOracles,
      categorizeRecord o ⟨"https://example.com/about/", none⟩ =
        .ok ⟨"https://example.com/about/", "page", none⟩) ∧
    (∀ o : StdlibOracles,
      categorizeRecord o ⟨"https://example.com/blogs/news/my-post/", none⟩ =
        .ok ⟨"https://example.com/blogs/news/my-post/", "blog", none⟩) ∧
    (∀ o : StdlibOracles,
      categorizeRecord o ⟨"https://h/products/widget/\n", none⟩ =
        .ok ⟨"https://h/products/widget/\n", "product", none⟩) := by
  refine ⟨?_, fun o => rfl, fun o => rfl, fun o => rfl, fun o => rfl⟩
  intro o u lm p h
  refine ⟨categorizeRecord_ok o ⟨u, lm⟩ p h, ?_⟩
  rw [pathCategory_eq]
  rw [← searchProd_iff, ← searchColl_iff, ← searchBlog_iff]
  cases hp : searchProd p.data <;> cases hc : searchColl p.data <;>
    cases hb : searchBlog p.data <;> simp [hp, hc, hb]

/-- Counterexample to C1 as stated: on the reachable loc text
`http://[x/products/a` the categorizer does not assign a category at all
— `urlparse` raises `ValueError` on the unbalanced bracket in the
netloc, and the error propagates. -/
theorem categorize_first_match_counterexample :
    categorizeRecord o0 ⟨"http://[x/products/a", none⟩ = .error .valueError := rfl

/-- C4 (amended): categorize is pure, deterministic and order-preserving
— it succeeds exactly when every record's URL survives `urlparse`, and
then yields one categorized record per input record, in order, with
`url` and `lastmod` unchanged, the category always one of the four
enumerated values, and `page` assigned whenever no pattern matches; on a
record whose URL makes `urlparse` raise, the whole categorization
fails. -/
theorem categorize_total : ∀ (o : StdlibOracles) (urls : List URLRecord),
    ((∀ r ∈ urls, ∃ p, urlparse_path o r.url = .ok p) →
      ∃ cats, categorize_urls o urls = .ok cats) ∧
    (∀ cats, categorize_urls o urls = .ok cats →
      cats.length = urls.length ∧
      (∀ i : Nat, (cats[i]?).map CatRecord.url = (urls[i]?).map URLRecord.url) ∧
      (∀ i : Nat, (cats[i]?).map CatRecord.lastmod = (urls[i]?).map URLRecord.lastmod) ∧
      (∀ c ∈ cats, c.category = "page" ∨ c.category = "product" ∨
        c.category = "collection" ∨ c.category = "blog")) ∧
    (∀ (u : String) (lm : Option String) (p : String), urlparse_path o u = .ok p →
      searchProd p.data = false → searchColl p.data = false → searchBlog p.data = false →
      categorizeRecord o ⟨u, lm⟩ = .ok ⟨u, "page", lm⟩) := by
  intro o urls
  refine ⟨?_, ?_, ?_⟩
  · induction urls with
    | nil =>
      intro _
      exact ⟨[], rfl⟩
    | cons r rest ih =>
      intro h
      obtain ⟨p, hp⟩ := h r (by simp)
      obtain ⟨cats', hc⟩ := ih (fun x hx => h x (by simp [hx]))
      refine ⟨⟨r.url, pathCategory p, r.lastmod⟩ :: cats', ?_⟩
      simp [categorize_urls, categorizeRecord_ok o r p hp, hc]
  · induction urls with
    | nil =>
      intro cats h
      simp only [categorize_urls] at h
      injection h with h1
      rw [← h1]
      refine ⟨rfl, ?_, ?_, by simp⟩
      · intro i
        simp
      · intro i
        simp
    | cons r rest ih =>
      intro cats h
      cases hcr : categorizeRecord o r with
      | error e => simp [categorize_urls, hcr] at h
      | ok c =>
        cases hcs : categorize_urls o rest with
        | error e => simp [categorize_urls, hcr, hcs] at h
        | ok cs =>
          simp only [categorize_urls, hcr, hcs] at h
          injection h with h1
          rw [← h1]
          obtain ⟨hl, hm1, hm2, hmem⟩ := ih cs hcs
          obtain ⟨hu, hlm, hcat⟩ := categorizeRecord_ok_inv o r c hcr
          refine ⟨by simp [hl], ?_, ?_, ?_⟩
          · intro i
            cases i with
            | zero => simp [hu]
            | succ n => simpa using hm1 n
          · intro i
            cases i with
            | zero => simp [hlm]
            | succ n => simpa using hm2 n
          · intro x hx
            rcases List.mem_cons.1 hx with rfl | hx'
            · exact hcat
            · exact hmem x hx'
  · intro u lm p h h1 h2 h3
    rw [categorizeRecord_ok o ⟨u, lm⟩ p h,
      show pathCategory p = "page" by rw [pathCategory_eq]; simp [h1, h2, h3]]

/-- Counterexample to C4 as stated: categorize is not total — on the
reachable loc text `http://[x/p` (netloc with `[` and no `]`) `urlparse`
raises `ValueError` and the whole categorization fails. -/
theorem categorize_total_counterexample :
    categorize_urls o0 [⟨"http://[x/p", none⟩] = .error .valueError := rfl

/-- C6: the patterns are anchored at the end of the path but not at its
start: a match anywhere as a suffix suffices (prepending path segments
preserves a match, `/en/products/widget` is a `product`), while trailing
material after the matched segment defeats the match. -/
theorem categorize_suffix_anchored :
    (∀ pre p, searchProd p = true → searchProd (pre ++ p) = true) ∧
    (∀ pre p, searchColl p = true → searchColl (pre ++ p) = true) ∧
    (∀ pre p, searchBlog p = true → searchBlog (pre ++ p) = true) ∧
    (∀ o : StdlibOracles,
      categorizeRecord o ⟨"https://example.com/en/products/widget", none⟩ =
        .ok ⟨"https://example.com/en/products/widget", "product", none⟩) ∧
    searchProd "/products/widget/extra".data = false :=
  ⟨fun pre p h => searchB_mono _ pre p h, fun pre p h => searchB_mono _ pre p h,
   fun pre p h => searchB_mono _ pre p h, fun o => rfl, by decide⟩

/-- C7: categorization is deterministic and depends only on the outcome
of extracting the URL's path component: two URLs on which `urlparse`
behaves the same (equal paths, or the same error) get the same
categorization outcome, whatever their scheme, host, port, query,
fragment or lastmod. -/
theorem categorize_path_determined :
    ∀ (o : StdlibOracles) (u1 u2 : String) (lm1 lm2 : Option String),
      urlparse_path o u1 = urlparse_path o u2 →
      (categorizeRecord o ⟨u1, lm1⟩).map CatRecord.category =
        (categorizeRecord o ⟨u2, lm2⟩).map CatRecord.category := by
  intro o u1 u2 lm1 lm2 h
  cases hp : urlparse_path o u1 with
  | error e =>
    rw [categorizeRecord_error o ⟨u1, lm1⟩ e hp,
      categorizeRecord_error o ⟨u2, lm2⟩ e (h.symm.trans hp)]
  | ok p =>
    rw [categorizeRecord_ok o ⟨u1, lm1⟩ p hp,
      categorizeRecord_ok o ⟨u2, lm2⟩ p (h.symm.trans hp)]
    rfl

/-- Witness for C7: two URLs differing in scheme, host, port, query,
fragment, lastmod and an embedded LF (stripped by `urlparse`), with the
same path, get the same category. -/
theorem categorize_path_determined_witness :
    (categorizeRecord o0 ⟨"https://shop.example.com/products/x?ref=1", none⟩).map
        CatRecord.category =
      (categorizeRecord o0
        ⟨"http://other.org:8080/products/x\n#top", some "2024-01-01"⟩).map
        CatRecord.category :=
  categorize_path_determined o0 "https://shop.example.com/products/x?ref=1"
    "http://other.org:8080/products/x\n#top" none (some "2024-01-01") (by rfl)

/-! ## The traverser -/

theorem beq_loc_sitemap : (smLocTag == smSitemapTag) = false := by decide

theorem beq_url_sitemap : (smUrlTag == smSitemapTag) = false := by decide

theorem beq_lastmod_sitemap : (smLastmodTag == smSitemapTag) = false := by decide

theorem beq_sitemap_url : (smSitemapTag == smUrlTag) = false := by decide

theorem beq_loc_url : (smLocTag == smUrlTag) = false := by decide

theorem beq_lastmod_url : (smLastmodTag == smUrlTag) = false := by decide

theorem beq_lastmod_loc : (smLastmodTag == smLocTag) = false := by decide

theorem beq_loc_lastmod : (smLocTag == smLastmodTag) = false := by decide

theorem urlLoop_eq (tags : List XmlElem) (acc : List URLRecord) :
    urlLoop tags acc = acc ++ tags.filterMap urlEntryRecord := by
  induction tags generalizing acc with
  | nil => simp [urlLoop]
  | cons u rest ih =>
    cases h : findChild smLocTag u with
    | none => simp [urlLoop, urlEntryRecord, h, ih]
    | some loc =>
      cases ht : loc.text with
      | none => simp [urlLoop, urlEntryRecord, h, ht, ih]
      | some s =>
        by_cases hs : s = ""
        · simp [urlLoop, urlEntryRecord, h, ht, hs, ih]
        · simp [urlLoop, urlEntryRecord, h, ht, hs, ih]

theorem descList_nil : descList [] = [] := by simp [descList]

theorem descList_cons (e : XmlElem) (rest : List XmlElem) :
    descList (e :: rest) = e :: (descList e.children ++ descList rest) := by
  cases e
  simp [descList]

theorem sitemapEntry_tag (e : Option String) : (sitemapEntry e).tag = smSitemapTag := by
  cases e <;> rfl

theorem sitemapEntry_some_children (u : String) :
    (sitemapEntry (some u)).children = [⟨smLocTag, some u, []⟩] := rfl

theorem sitemapEntry_none_children : (sitemapEntry none).children = [] := rfl

theorem mkUrlEntry_tag (u : String) (lm : Option String) :
    (mkUrlEntry u lm).tag = smUrlTag := by
  cases lm <;> rfl

theorem mkUrlEntry_children_none (u : String) :
    (mkUrlEntry u none).children = [⟨smLocTag, some u, []⟩] := rfl

theorem mkUrlEntry_children_some (u t : String) :
    (mkUrlEntry u (some t)).children =
      [⟨smLocTag, some u, []⟩, ⟨smLastmodTag, some t, []⟩] := rfl

theorem findall_indexDoc_sitemap (entries : List (Option String)) :
    findallDesc smSitemapTag (indexDoc entries) = entries.map sitemapEntry := by
  have key : ∀ es : List (Option String),
      (descList (es.map sitemapEntry)).filter (fun e => e.tag == smSitemapTag) =
        es.map sitemapEntry := by
    intro es
    induction es with
    | nil => simp [descList_nil]
    | cons e rest ih =>
      rw [List.map_cons, descList_cons]
      cases e with
      | none =>
        simp [sitemapEntry_none_children, descList_nil, List.filter_cons, List.filter_append,
          sitemapEntry_tag, ih]
      | some u =>
        simp [sitemapEntry_some_children, descList_cons, descList_nil, List.filter_cons,
          List.filter_append, sitemapEntry_tag, beq_loc_sitemap, ih]
  simpa [findallDesc, indexDoc] using key entries

theorem findall_indexDoc_url (entries : List (Option String)) :
    findallDesc smUrlTag (indexDoc entries) = [] := by
  have key : ∀ es : List (Option String),
      (descList (es.map sitemapEntry)).filter (fun e => e.tag == smUrlTag) = [] := by
    intro es
    induction es with
    | nil => simp [descList_nil]
    | cons e rest ih =>
      rw [List.map_cons, descList_cons]
      cases e with
      | none =>
        simp [sitemapEntry_none_children, descList_nil, List.filter_cons, List.filter_append,
          sitemapEntry_tag, beq_sitemap_url, ih]
      | some u =>
        simp [sitemapEntry_some_children, descList_cons, descList_nil, List.filter_cons,
          List.filter_append, sitemapEntry_tag, beq_sitemap_url, beq_loc_url, ih]
  simpa [findallDesc, indexDoc] using key entries

theorem findall_urlset_sitemap (es : List (String × Option String)) :
    findallDesc smSitemapTag (mkUrlset es) = [] := by
  have key : ∀ l : List (String × Option String),
      (descList (l.map (fun e => mkUrlEntry e.1 e.2))).filter
        (fun e => e.tag == smSitemapTag) = [] := by
    intro l
    induction l with
    | nil => simp [descList_nil]
    | cons e rest ih =>
      obtain ⟨u, lm⟩ := e
      rw [List.map_cons, descList_cons]
      cases lm <;>
        simp [mkUrlEntry_tag, mkUrlEntry_children_none, mkUrlEntry_children_some,
          descList_cons, descList_nil, List.filter_cons, List.filter_append,
          beq_url_sitemap, beq_loc_sitemap, beq_lastmod_sitemap, ih]
  simpa [findallDesc, mkUrlset] using key es

theorem findall_urlset_url (es : List (String × Option String)) :
    findallDesc smUrlTag (mkUrlset es) = es.map (fun e => mkUrlEntry e.1 e.2) := by
  have key : ∀ l : List (String × Option String),
      (descList (l.map (fun e => mkUrlEntry e.1 e.2))).filter
        (fun e => e.tag == smUrlTag) = l.map (fun e => mkUrlEntry e.1 e.2) := by
    intro l
    induction l with
    | nil => simp [descList_nil]
    | cons e rest ih =>
      obtain ⟨u, lm⟩ := e
      rw [List.map_cons, descList_cons]
      cases lm <;>
        simp [mkUrlEntry_tag, mkUrlEntry_children_none, mkUrlEntry_children_some,
          descList_cons, descList_nil, List.filter_cons, List.filter_append,
          beq_loc_url, beq_lastmod_url, ih]
  simpa [findallDesc, mkUrlset] using key es

theorem urlEntryRecord_mkUrlEntry (u : String) (lm : Option String) :
    urlEntryRecord (mkUrlEntry u lm) = if u = "" then none else some ⟨u, lm⟩ := by
  by_cases hu : u = "" <;>
    cases lm <;>
      simp [urlEntryRecord, mkUrlEntry, findChild, hu, beq_lastmod_loc, beq_loc_lastmod]

theorem recordsOf_eq_filterMap (es : List (String × Option String)) :
    es.filterMap (fun e => urlEntryRecord (mkUrlEntry e.1 e.2)) = recordsOf es := by
  induction es with
  | nil => rfl
  | cons e rest ih =>
    by_cases h : e.1 = "" <;>
      simp [List.filterMap_cons, urlEntryRecord_mkUrlEntry, h, recordsOf, ih]

theorem parse_sitemap_error (net : Net) (fuel : Nat) (e : PErr) (urls : List URLRecord) :
    parse_sitemap net fuel (.error e) urls = .error e := by
  simp [parse_sitemap]

theorem processSitemaps_nil (net : Net) (fuel : Nat) (urls : List URLRecord) :
    processSitemaps net fuel [] urls = .ok urls := by
  simp [processSitemaps]

theorem parse_sitemap_ok (net : Net) (fuel : Nat) (root : XmlElem) (urls : List URLRecord) :
    parse_sitemap net fuel (.ok root) urls =
      (match processSitemaps net fuel (findallDesc smSitemapTag root) urls with
       | .error e => .error e
       | .ok urls1 => .ok (urlLoop (findallDesc smUrlTag root) urls1)) := by
  simp only [parse_sitemap]

theorem findChild_loc_sitemapEntry (u : String) :
    findChild smLocTag (sitemapEntry (some u)) = some ⟨smLocTag, some u, []⟩ := by
  simp [findChild, sitemapEntry]

theorem findChild_loc_sitemapEntry_none :
    findChild smLocTag (sitemapEntry none) = none := rfl

theorem netOf_some (f : String → List (String × Option String)) (u : String) :
    netOf f (some u) = .ok (.ok (mkUrlset (f u))) := rfl

theorem parse_sitemap_urlset (net : Net) (fuel : Nat) (es : List (String × Option String))
    (acc : List URLRecord) :
    parse_sitemap net fuel (.ok (mkUrlset es)) acc = .ok (acc ++ recordsOf es) := by
  simp only [parse_sitemap_ok, findall_urlset_sitemap, processSitemaps_nil, findall_urlset_url,
    urlLoop_eq, List.filterMap_map]
  rw [show (urlEntryRecord ∘ fun e : String × Option String => mkUrlEntry e.1 e.2) =
        fun e : String × Option String => urlEntryRecord (mkUrlEntry e.1 e.2) from rfl,
    recordsOf_eq_filterMap]

theorem processSitemaps_netOf (f : String → List (String × Option String)) (fuel : Nat) :
    ∀ (us : List String) (acc : List URLRecord),
      processSitemaps (netOf f) (fuel + 1) (us.map (fun u => sitemapEntry (some u))) acc =
        .ok (acc ++ recordsAll f us) := by
  intro us
  induction us with
  | nil =>
    intro acc
    simp [processSitemaps_nil, recordsAll]
  | cons u rest ih =>
    intro acc
    rw [List.map_cons]
    conv_lhs => rw [processSitemaps.eq_def]
    simp only [findChild_loc_sitemapEntry, netOf_some, parse_sitemap_urlset, ih, recordsAll,
      List.append_assoc]

theorem parse_index_all (f : String → List (String × Option String)) (fuel : Nat)
    (us : List String) (acc : List URLRecord) :
    parse_sitemap (netOf f) (fuel + 1) (.ok (indexDoc (us.map some))) acc =
      .ok (acc ++ recordsAll f us) := by
  rw [parse_sitemap_ok, findall_indexDoc_sitemap, findall_indexDoc_url, List.map_map]
  rw [show sitemapEntry ∘ some = fun u => sitemapEntry (some u) from rfl]
  rw [processSitemaps_netOf]
  simp [urlLoop_eq]

theorem processSitemaps_defect (f : String → List (String × Option String)) (fuel : Nat) :
    ∀ (entries : List (Option String)) (acc : List URLRecord), none ∈ entries →
      processSitemaps (netOf f) (fuel + 1) (entries.map sitemapEntry) acc =
        .error .attrError := by
  intro entries
  induction entries with
  | nil =>
    intro acc h
    simp at h
  | cons e rest ih =>
    intro acc h
    rw [List.map_cons]
    cases e with
    | none =>
      conv_lhs => rw [processSitemaps.eq_def]
      simp only [findChild_loc_sitemapEntry_none]
    | some u =>
      have hmem : none ∈ rest := by
        rcases List.mem_cons.1 h with h1 | h1
        · exact absurd h1 (by simp)
        · exact h1
      conv_lhs => rw [processSitemaps.eq_def]
      simp only [findChild_loc_sitemapEntry, netOf_some, parse_sitemap_urlset,
        ih (acc ++ recordsOf (f u)) hmem]

/-- C2: on a well-formed document with no `<sitemap>` entries, starting
from an empty accumulation list, `parse_sitemap` succeeds and appends
exactly the records of the `<url>` entries whose `<loc>` child exists
with nonempty text, in document order, with the `<loc>` text as `url` and
the `<lastmod>` text (absent when the element is absent) as `lastmod`;
entries with a missing or empty `<loc>` are silently skipped. -/
theorem urlset_extraction : ∀ (net : Net) (fuel : Nat) (root : XmlElem),
    findallDesc smSitemapTag root = [] →
    parse_sitemap net fuel (.ok root) [] =
      .ok ((findallDesc smUrlTag root).filterMap urlEntryRecord) := by
  intro net fuel root h
  rw [parse_sitemap_ok, h, processSitemaps_nil]
  simp [urlLoop_eq]

/-- Witness for C2: a `<urlset>` with entries exercising present and
absent `<lastmod>`, a missing `<loc>`, an empty `<loc>` and a text-less
`<loc>` yields exactly the two well-formed records, in order. -/
theorem urlset_extraction_witness :
    parse_sitemap (netOf fun _ => []) 1 (.ok c2doc) [] =
      .ok [⟨"https://example.com/a", some "2024-01-01"⟩, ⟨"https://example.com/b", none⟩] := by
  have h : findallDesc smSitemapTag c2doc = [] := by
    simp [c2doc, findallDesc, descList_cons, descList_nil, List.filter_cons, List.filter_append,
      mkUrlEntry_tag, mkUrlEntry_children_none, mkUrlEntry_children_some, beq_url_sitemap,
      beq_loc_sitemap, beq_lastmod_sitemap]
  rw [urlset_extraction (netOf fun _ => []) 1 c2doc h]
  simp [c2doc, findallDesc, descList_cons, descList_nil, List.filter_cons, List.filter_append,
    mkUrlEntry_tag, mkUrlEntry_children_none, mkUrlEntry_children_some, beq_loc_url,
    beq_lastmod_url, List.filterMap_cons, urlEntryRecord_mkUrlEntry, urlEntryRecord, findChild,
    beq_loc_lastmod, beq_lastmod_loc]

/-- C3: a `<sitemapindex>` is traversed depth-first in document order,
fetching and parsing every referenced sub-sitemap exactly once per
`<sitemap>` reference (no deduplication), accumulating the sub-sitemaps'
records in the order the references are listed; in particular an index of
two one-URL sub-sitemaps accumulates exactly those two records, in
order. -/
theorem index_traversal :
    (∀ (f : String → List (String × Option String)) (fuel : Nat) (us : List String)
        (acc : List URLRecord),
      parse_sitemap (netOf f) (fuel + 1) (.ok (indexDoc (us.map some))) acc =
        .ok (acc ++ recordsAll f us)) ∧
    parse_sitemap (netOf scenarioDNet) 1
        (.ok (indexDoc [some "https://example.com/s1.xml", some "https://example.com/s2.xml"]))
        [] =
      .ok [⟨"https://example.com/a", none⟩, ⟨"https://example.com/b", none⟩] := by
  refine ⟨parse_index_all, ?_⟩
  exact (parse_index_all scenarioDNet 0
    ["https://example.com/s1.xml", "https://example.com/s2.xml"] []).trans (by rfl)

/-- C8: element lookups are scoped to the sitemap namespace: on a
well-formed document none of whose elements' qualified tags start with
the braced sitemap namespace, `parse_sitemap` succeeds, raises nothing
and appends zero records. -/
theorem ns_scoped : ∀ (net : Net) (fuel : Nat) (root : XmlElem) (acc : List URLRecord),
    (∀ e ∈ descList root.children, startsWithL smNsBrace.data e.tag.data = false) →
    parse_sitemap net fuel (.ok root) acc = .ok acc := by
  intro net fuel root acc h
  have htag : ∀ t : String, startsWithL smNsBrace.data t.data = true →
      ∀ e ∈ descList root.children, (e.tag == t) = false := by
    intro t ht e he
    rcases Bool.eq_false_or_eq_true (e.tag == t) with htr | hf
    case inr => exact hf
    case inl =>
      exfalso
      have hte : e.tag = t := by simpa using htr
      have h2 := h e he
      rw [hte, ht] at h2
      exact absurd h2 (by simp)
  have hs : findallDesc smSitemapTag root = [] := by
    rw [findallDesc, List.filter_eq_nil_iff]
    intro e he
    simp [htag smSitemapTag (by decide) e he]
  have hu : findallDesc smUrlTag root = [] := by
    rw [findallDesc, List.filter_eq_nil_iff]
    intro e he
    simp [htag smUrlTag (by decide) e he]
  rw [parse_sitemap_ok, hs, processSitemaps_nil, hu]
  simp [urlLoop_eq]

/-- Witness for C8: a document with unqualified `urlset`/`url`/`loc` tags
parses to zero records without error. -/
theorem ns_scoped_witness :
    parse_sitemap (netOf fun _ => []) 1 (.ok noNsDoc) [] = .ok [] := by
  refine ns_scoped (netOf fun _ => []) 1 noNsDoc [] ?_
  intro e he
  simp [noNsDoc, descList_cons, descList_nil] at he
  rcases he with rfl | rfl
  · decide
  · decide

/-- C9: a `<sitemapindex>` containing a `<sitemap>` entry without a
`<loc>` child makes `parse_sitemap` fail with the attribute-access error
(not a `ParseError`, not a graceful skip), which propagates. -/
theorem index_missing_loc : ∀ (f : String → List (String × Option String)) (fuel : Nat)
    (entries : List (Option String)) (acc : List URLRecord),
    none ∈ entries →
    parse_sitemap (netOf f) (fuel + 1) (.ok (indexDoc entries)) acc = .error .attrError ∧
      PErr.attrError ≠ PErr.parseError := by
  intro f fuel entries acc h
  refine ⟨?_, by decide⟩
  rw [parse_sitemap_ok, findall_indexDoc_sitemap, processSitemaps_defect f fuel entries acc h]

/-- Witness for C9: an index whose second entry lacks `<loc>` fails with
the attribute-access error even though its first entry is well-formed. -/
theorem index_missing_loc_witness :
    parse_sitemap (netOf fun _ => []) 1
        (.ok (indexDoc [some "https://example.com/a.xml", none])) [] =
      .error .attrError ∧ PErr.attrError ≠ PErr.parseError :=
  index_missing_loc (fun _ => []) 0 [some "https://example.com/a.xml", none] [] (by simp)

/-- C5 (amended): malformed XML makes `parse_sitemap` fail with the
`ParseError`; a failure during fetch, during parse or during categorize
aborts the run with exit code 1 and nothing written.  (Only a failure
inside export can occur after the file is written — see the
counterexample.) -/
theorem pipeline_abort : ∀ (o : StdlibOracles) (net : Net) (fuel : Nat) (url : String)
    (output : Option String) (autoName : String) (acc : List URLRecord) (e : PErr),
    (parse_sitemap net fuel (.error .parseError) acc = .error .parseError) ∧
    (net (some url) = .error e → mainRun o net fuel url output autoName = (1, none)) ∧
    (∀ content : Content, net (some url) = .ok content →
      parse_sitemap net fuel content [] = .error e →
      mainRun o net fuel url output autoName = (1, none)) ∧
    (∀ (content : Content) (urls : List URLRecord), net (some url) = .ok content →
      parse_sitemap net fuel content [] = .ok urls →
      categorize_urls o urls = .error e →
      mainRun o net fuel url output autoName = (1, none)) := by
  intro o net fuel url output autoName acc e
  refine ⟨parse_sitemap_error net fuel _ acc, ?_, ?_, ?_⟩
  · intro h
    simp [mainRun, h]
  · intro content hc hp
    simp [mainRun, hc, hp]
  · intro content urls hc hp hcat
    simp [mainRun, hc, hp, hcat]

/-- Counterexample to C5 as stated: a run over an empty `<urlset>` fails
(exit code 1, the summary raises on the missing `category` column) and
yet an output file was produced. -/
theorem pipeline_abort_counterexample :
    (mainRun o0 (netOf fun _ => []) 1 "https://example.com/sitemap.xml" none
        "sitemap_results_20260101_000000.xlsx").1 = 1 ∧
    (mainRun o0 (netOf fun _ => []) 1 "https://example.com/sitemap.xml" none
        "sitemap_results_20260101_000000.xlsx").2 =
      some ("sitemap_results_20260101_000000.xlsx", []) := by
  have hp := parse_sitemap_urlset (netOf fun _ => []) 1 [] []
  constructor <;>
    simp [mainRun, netOf_some, hp, recordsOf, categorize_urls, export_to_excel]

/-- C10: exporting an empty record sequence writes the output file and
then fails with the `KeyError` from the per-category summary (the
`category` column does not exist in an empty frame). -/
theorem export_empty_fails : ∀ (output : Option String) (autoName : String),
    ((export_to_excel [] output autoName).1).isSome = true ∧
    (export_to_excel [] output autoName).2 = .error .keyError := by
  intro output autoName
  cases output with
  | none => simp [export_to_excel]
  | some s => by_cases h : s = "" <;> simp [export_to_excel, h]

end SitemapVer
